import Mathlib

/-
Verification of the availability-checker backend: a shallow embedding of the
service functions (availability engine, auth module, user update) over explicit
store states, with theorems settling the specified behaviour.

Timestamps are modelled as natural numbers (seconds since an epoch, UTC); the
relational store is modelled as lists of rows; the ORM find_first call is
modelled as List.find? in store order, and find_first with an ascending
startTime ordering as the minimum-startTime element of the filtered rows.
-/

namespace AvailabilityChecker

/-- Schedule row of the store: a time block owned by a user, with the linked
Appointment rows (fetched by the include clause) carried as a list of
appointment ids. -/
structure Schedule where
  id : Nat
  userId : String
  startTime : Nat
  endTime : Nat
  available : Bool
  appointments : List Nat
deriving Repr, DecidableEq

/-- Response model of get_availability (GetAvailabilityResponse in
get_availability_service.py). -/
structure GetAvailabilityResponse where
  userId : String
  isAvailable : Bool
  message : Option String
  timeUntilNextAvailability : Option Nat
deriving Repr, DecidableEq

/-- Where-clause of the current-schedule query: userId matches and
startTime lte now and endTime gte now (inclusive both ends). -/
def currentPred (uid : String) (now : Nat) (s : Schedule) : Bool :=
  s.userId == uid && decide (s.startTime ≤ now) && decide (now ≤ s.endTime)

/-- Current-schedule lookup: find_first with the interval where-clause and no
ordering, modelled as the first matching row in store order. -/
def findCurrent (st : List Schedule) (uid : String) (now : Nat) : Option Schedule :=
  st.find? (currentPred uid now)

/-- Where-clause of the forward search: userId matches, startTime gt now,
available true. -/
def nextPred (uid : String) (now : Nat) (s : Schedule) : Bool :=
  s.userId == uid && decide (now < s.startTime) && s.available

/-- Minimum-startTime element of a nonempty candidate list; on ties the
earlier row in store order is kept. -/
def minByStart (s : Schedule) (rest : List Schedule) : Schedule :=
  rest.foldl (fun acc t => if t.startTime < acc.startTime then t else acc) s

/-- Forward search for the next availability: find_first with the forward
where-clause ordered by startTime ascending, modelled as the
minimum-startTime row among the matching rows. -/
def findNext (st : List Schedule) (uid : String) (now : Nat) : Option Schedule :=
  match st.filter (nextPred uid now) with
  | [] => none
  | s :: rest => some (minByStart s rest)

/-- Rendering of a timestamp in the unavailable-until message; the strftime
date formatting of the source is abstracted to the numeric timestamp. -/
def formatTime (t : Nat) : String :=
  toString t

/-- Availability engine get_availability from get_availability_service.py,
evaluated against an explicit store st at instant now. -/
def get_availability (st : List Schedule) (uid : String) (now : Nat) :
    GetAvailabilityResponse :=
  match findCurrent st uid now with
  | some cur =>
    if cur.available && cur.appointments.isEmpty then
      ⟨uid, true, some "Available", none⟩
    else
      match findNext st uid now with
      | some nxt =>
        ⟨uid, false, some ("Unavailable until " ++ formatTime nxt.startTime),
          some ((nxt.startTime - now) / 60)⟩
      | none => ⟨uid, false, some "No more available schedules today", none⟩
  | none => ⟨uid, false, some "No current schedules found", none⟩

/- Helper lemmas on the forward search. -/

theorem minByStart_mem (s : Schedule) (rest : List Schedule) :
    minByStart s rest ∈ s :: rest := by
  induction rest generalizing s with
  | nil => simp [minByStart]
  | cons t ts ih =>
    simp only [minByStart, List.foldl_cons]
    by_cases h : t.startTime < s.startTime
    · simp only [h, if_pos]
      have := ih t
      simp only [minByStart] at this
      rcases List.mem_cons.mp this with h1 | h1
      · exact List.mem_cons.mpr (Or.inr (List.mem_cons.mpr (Or.inl h1)))
      · exact List.mem_cons.mpr (Or.inr (List.mem_cons.mpr (Or.inr h1)))
    · simp only [h, if_neg, not_false_iff]
      have := ih s
      simp only [minByStart] at this
      rcases List.mem_cons.mp this with h1 | h1
      · exact List.mem_cons.mpr (Or.inl h1)
      · exact List.mem_cons.mpr (Or.inr (List.mem_cons.mpr (Or.inr h1)))

theorem minByStart_le (s : Schedule) (rest : List Schedule) :
    ∀ m ∈ s :: rest, (minByStart s rest).startTime ≤ m.startTime := by
  induction rest generalizing s with
  | nil =>
    intro m hm
    simp only [List.mem_singleton] at hm
    simp [minByStart, hm]
  | cons t ts ih =>
    intro m hm
    simp only [minByStart, List.foldl_cons]
    by_cases h : t.startTime < s.startTime
    · simp only [h, if_pos]
      have hle := ih t
      simp only [minByStart] at hle
      rcases List.mem_cons.mp hm with h1 | h1
      · calc (List.foldl (fun acc u => if u.startTime < acc.startTime then u else acc) t ts).startTime
              ≤ t.startTime := hle t (List.mem_cons_self t ts)
          _ ≤ m.startTime := by subst h1; omega
      · rcases List.mem_cons.mp h1 with h2 | h2
        · exact hle m (by simp [h2])
        · exact hle m (List.mem_cons.mpr (Or.inr h2))
    · simp only [h, if_neg, not_false_iff]
      have hle := ih s
      simp only [minByStart] at hle
      rcases List.mem_cons.mp hm with h1 | h1
      · exact hle m (by simp [h1])
      · rcases List.mem_cons.mp h1 with h2 | h2
        · calc (List.foldl (fun acc u => if u.startTime < acc.startTime then u else acc) s ts).startTime
                ≤ s.startTime := hle s (List.mem_cons_self s ts)
            _ ≤ m.startTime := by subst h2; omega
        · exact hle m (List.mem_cons.mpr (Or.inr h2))

theorem findNext_some_spec (st : List Schedule) (uid : String) (now : Nat)
    (n : Schedule) (h : findNext st uid now = some n) :
    n ∈ st ∧ nextPred uid now n = true ∧
      ∀ m ∈ st, nextPred uid now m = true → n.startTime ≤ m.startTime := by
  unfold findNext at h
  rcases hf : st.filter (nextPred uid now) with _ | ⟨s, rest⟩
  · rw [hf] at h; exact absurd h (by simp)
  · rw [hf] at h
    simp only [Option.some.injEq] at h
    subst h
    have hmem : minByStart s rest ∈ s :: rest := minByStart_mem s rest
    have hmem2 : minByStart s rest ∈ st.filter (nextPred uid now) := by
      rw [hf]; exact hmem
    have hfilt := List.mem_filter.mp hmem2
    refine ⟨hfilt.1, hfilt.2, ?_⟩
    intro m hm hpm
    have : m ∈ s :: rest := by
      rw [← hf]; exact List.mem_filter.mpr ⟨hm, hpm⟩
    exact minByStart_le s rest m this

theorem findNext_none_iff (st : List Schedule) (uid : String) (now : Nat) :
    findNext st uid now = none ↔ ∀ m ∈ st, nextPred uid now m = false := by
  cases hf : st.filter (nextPred uid now) with
  | nil =>
    simp only [findNext, hf]
    constructor
    · intro _ m hm
      by_contra hc
      have hp : nextPred uid now m = true := by
        revert hc; cases nextPred uid now m <;> simp
      have hmem : m ∈ st.filter (nextPred uid now) := List.mem_filter.mpr ⟨hm, hp⟩
      rw [hf] at hmem
      exact absurd hmem (List.not_mem_nil m)
    · intro _; trivial
  | cons s rest =>
    simp only [findNext, hf]
    constructor
    · intro h; exact absurd h (by simp)
    · intro h
      have hmem : s ∈ st.filter (nextPred uid now) := by
        rw [hf]; exact List.mem_cons_self s rest
      have hsp := List.mem_filter.mp hmem
      rw [h s hsp.1] at hsp
      exact absurd hsp.2 (by simp)

theorem findCurrent_some_spec (st : List Schedule) (uid : String) (now : Nat)
    (cur : Schedule) (h : findCurrent st uid now = some cur) :
    cur ∈ st ∧ cur.userId = uid ∧ cur.startTime ≤ now ∧ now ≤ cur.endTime := by
  have hmem := List.mem_of_find?_eq_some h
  have hp := List.find?_some h
  unfold currentPred at hp
  simp only [Bool.and_eq_true, beq_iff_eq, decide_eq_true_eq] at hp
  exact ⟨hmem, hp.1.1, hp.1.2, hp.2⟩

/-- C1 counterexample: with two schedules of user u both containing now = 5 in
store order [unavailable first, available-and-free second], a Schedule exists
whose interval contains now with available true and zero appointments, yet
get_availability returns isAvailable = false, because the lookup takes the
first matching row in store order. -/
theorem c1_counterexample :
    (⟨2, "u", 0, 10, true, []⟩ : Schedule) ∈
      [(⟨1, "u", 0, 10, false, []⟩ : Schedule), ⟨2, "u", 0, 10, true, []⟩] ∧
    (⟨2, "u", 0, 10, true, []⟩ : Schedule).userId = "u" ∧
    (⟨2, "u", 0, 10, true, []⟩ : Schedule).startTime ≤ 5 ∧
    5 ≤ (⟨2, "u", 0, 10, true, []⟩ : Schedule).endTime ∧
    (⟨2, "u", 0, 10, true, []⟩ : Schedule).available = true ∧
    (⟨2, "u", 0, 10, true, []⟩ : Schedule).appointments = [] ∧
    (get_availability [⟨1, "u", 0, 10, false, []⟩, ⟨2, "u", 0, 10, true, []⟩]
        "u" 5).isAvailable = false := by
  decide

/-- C1 (amended): get_availability returns isAvailable = true exactly when the
first Schedule in store order of the user whose interval contains now
(inclusive both ends) has available = true and zero linked Appointments; in
particular isAvailable = true only when such a current, available,
appointment-free Schedule exists. -/
theorem c1_availability_iff_first_current_free (st : List Schedule)
    (uid : String) (now : Nat) :
    (get_availability st uid now).isAvailable = true ↔
      ∃ cur, findCurrent st uid now = some cur ∧
        cur.available = true ∧ cur.appointments = [] := by
  cases hc : findCurrent st uid now with
  | none =>
    simp only [get_availability, hc]
    constructor
    · intro hav; exact absurd hav (by simp)
    · rintro ⟨cur, hc2, -, -⟩; exact absurd hc2 (by simp)
  | some cur =>
    simp only [get_availability, hc]
    by_cases hb : (cur.available && cur.appointments.isEmpty) = true
    · rw [if_pos hb]
      obtain ⟨ha, he⟩ : cur.available = true ∧ cur.appointments.isEmpty = true := by
        simpa using hb
      constructor
      · intro _
        exact ⟨cur, rfl, ha, List.isEmpty_iff.mp he⟩
      · intro _; rfl
    · rw [if_neg hb]
      constructor
      · intro hav
        cases hn : findNext st uid now with
        | some nxt => rw [hn] at hav; exact absurd hav (by simp)
        | none => rw [hn] at hav; exact absurd hav (by simp)
      · rintro ⟨cur2, hc2, ha, he⟩
        rw [Option.some_inj] at hc2
        subst hc2
        exact absurd (by simp [ha, he]) hb

/-- C4: the current-schedule where-clause is inclusive at both ends; for a
Schedule with startTime at most endTime, the lookup at now = startTime and at
now = endTime both select that Schedule as the current one. -/
theorem c4_boundary_inclusive (sch : Schedule)
    (h : sch.startTime ≤ sch.endTime) :
    findCurrent [sch] sch.userId sch.startTime = some sch ∧
    findCurrent [sch] sch.userId sch.endTime = some sch := by
  have h1 : currentPred sch.userId sch.startTime sch = true := by
    simp [currentPred, h]
  have h2 : currentPred sch.userId sch.endTime sch = true := by
    simp [currentPred, h]
  exact ⟨by simp [findCurrent, List.find?_cons_of_pos _ h1],
    by simp [findCurrent, List.find?_cons_of_pos _ h2]⟩

theorem c4_witness :
    findCurrent [⟨1, "u", 3, 9, true, []⟩] "u" 3 =
      some ⟨1, "u", 3, 9, true, []⟩ ∧
    findCurrent [⟨1, "u", 3, 9, true, []⟩] "u" 9 =
      some ⟨1, "u", 3, 9, true, []⟩ :=
  c4_boundary_inclusive ⟨1, "u", 3, 9, true, []⟩ (by decide)

/-- C6: a user with no Schedule whose interval contains now gets
isAvailable = false, message "No current schedules found", and no
timeUntilNextAvailability. -/
theorem c6_no_current_schedule (st : List Schedule) (uid : String) (now : Nat)
    (h : ∀ sch ∈ st,
      ¬(sch.userId = uid ∧ sch.startTime ≤ now ∧ now ≤ sch.endTime)) :
    get_availability st uid now =
      ⟨uid, false, some "No current schedules found", none⟩ := by
  have hc : findCurrent st uid now = none := by
    rw [findCurrent, List.find?_eq_none]
    intro x hx hp
    apply h x hx
    unfold currentPred at hp
    simp only [Bool.and_eq_true, beq_iff_eq, decide_eq_true_eq] at hp
    exact ⟨hp.1.1, hp.1.2, hp.2⟩
  simp [get_availability, hc]

theorem c6_witness :
    get_availability [] "u" 0 =
      ⟨"u", false, some "No current schedules found", none⟩ :=
  c6_no_current_schedule [] "u" 0 (by simp)

/-- C7 counterexample: at a store whose only row is a current but unavailable
Schedule and with no forward availability, the claim premises hold, yet the
returned message is "No more available schedules today", not the claimed
reason text "no further availability in the visible horizon". -/
theorem c7_counterexample :
    (get_availability [⟨1, "u", 0, 10, false, []⟩] "u" 5).isAvailable = false ∧
    (get_availability [⟨1, "u", 0, 10, false, []⟩] "u" 5).timeUntilNextAvailability
      = none ∧
    (get_availability [⟨1, "u", 0, 10, false, []⟩] "u" 5).message =
      some "No more available schedules today" ∧
    (get_availability [⟨1, "u", 0, 10, false, []⟩] "u" 5).message ≠
      some "no further availability in the visible horizon" := by
  decide

/-- C7 (amended): when a current Schedule is found but is unavailable or
occupied and no Schedule of the same user with startTime after now and
available = true exists, get_availability returns isAvailable = false, no
timeUntilNextAvailability, and the message "No more available schedules
today". -/
theorem c7_no_next_schedule (st : List Schedule) (uid : String) (now : Nat)
    (cur : Schedule)
    (hc : findCurrent st uid now = some cur)
    (hocc : ¬(cur.available = true ∧ cur.appointments = []))
    (hnone : ∀ m ∈ st, ¬(m.userId = uid ∧ now < m.startTime ∧ m.available = true)) :
    get_availability st uid now =
      ⟨uid, false, some "No more available schedules today", none⟩ := by
  have hn : findNext st uid now = none := by
    rw [findNext_none_iff]
    intro m hm
    by_contra hcon
    have hq : nextPred uid now m = true := by
      revert hcon; cases nextPred uid now m <;> simp
    unfold nextPred at hq
    simp only [Bool.and_eq_true, beq_iff_eq, decide_eq_true_eq] at hq
    exact hnone m hm ⟨hq.1.1, hq.1.2, hq.2⟩
  have hb : (cur.available && cur.appointments.isEmpty) = false := by
    cases hq : cur.appointments.isEmpty with
    | true =>
      cases ha : cur.available with
      | true => exact absurd ⟨ha, List.isEmpty_iff.mp hq⟩ hocc
      | false => simp [ha]
    | false => simp [hq]
  simp [get_availability, hc, hb, hn]

theorem c7_witness :
    get_availability [⟨1, "u", 0, 10, false, []⟩] "u" 5 =
      ⟨"u", false, some "No more available schedules today", none⟩ :=
  c7_no_next_schedule _ "u" 5 ⟨1, "u", 0, 10, false, []⟩
    (by decide) (by decide) (by decide)

/-- C3: on the forward-search path, when a next available Schedule is found,
timeUntilNextAvailability is the floor of the second difference divided by 60
(which for a nonnegative difference coincides with truncation toward zero),
and the difference is strictly positive, so the value is never negative. -/
theorem c3_time_until_next_floor (st : List Schedule) (uid : String)
    (now : Nat) (cur nxt : Schedule)
    (hc : findCurrent st uid now = some cur)
    (hocc : (cur.available && cur.appointments.isEmpty) = false)
    (hn : findNext st uid now = some nxt) :
    ∃ t, (get_availability st uid now).timeUntilNextAvailability = some t ∧
      t = (nxt.startTime - now) / 60 ∧
      60 * t ≤ nxt.startTime - now ∧
      nxt.startTime - now < 60 * (t + 1) ∧
      now < nxt.startTime := by
  have hspec := findNext_some_spec st uid now nxt hn
  have hlt : now < nxt.startTime := by
    have := hspec.2.1
    unfold nextPred at this
    simp only [Bool.and_eq_true, beq_iff_eq, decide_eq_true_eq] at this
    exact this.1.2
  refine ⟨(nxt.startTime - now) / 60, ?_, rfl, ?_, ?_, hlt⟩
  · simp [get_availability, hc, hocc, hn]
  · omega
  · omega

theorem c3_witness :
    (get_availability [⟨1, "u", 0, 10, false, []⟩, ⟨2, "u", 130, 200, true, []⟩]
      "u" 5).timeUntilNextAvailability = some 2 := by
  obtain ⟨t, h1, h2, -, -, -⟩ :=
    c3_time_until_next_floor
      [⟨1, "u", 0, 10, false, []⟩, ⟨2, "u", 130, 200, true, []⟩] "u" 5
      ⟨1, "u", 0, 10, false, []⟩ ⟨2, "u", 130, 200, true, []⟩
      (by decide) (by decide) (by decide)
  rw [h1, h2]
  decide

/-- C2 counterexample: with two schedules of user u both containing now = 5 in
store order [available-and-free first, occupied second], a current Schedule
with a linked Appointment exists, yet get_availability returns
isAvailable = true, because only the first matching row in store order is
examined. -/
theorem c2_counterexample :
    (⟨2, "u", 0, 10, true, [7]⟩ : Schedule) ∈
      [(⟨1, "u", 0, 10, true, []⟩ : Schedule), ⟨2, "u", 0, 10, true, [7]⟩] ∧
    currentPred "u" 5 ⟨2, "u", 0, 10, true, [7]⟩ = true ∧
    (⟨2, "u", 0, 10, true, [7]⟩ : Schedule).appointments ≠ [] ∧
    (get_availability [⟨1, "u", 0, 10, true, []⟩, ⟨2, "u", 0, 10, true, [7]⟩]
        "u" 5).isAvailable = true := by
  decide

/-- C2 (amended): when the current Schedule found (the first in store order
whose interval contains now) has at least one linked Appointment, regardless
of its available flag, get_availability returns isAvailable = false; the
forward search yields a Schedule of the same user with startTime after now
and available = true having the earliest such startTime, and the response
reports the minutes until it; if no such Schedule exists the response carries
no timeUntilNextAvailability. -/
theorem c2_occupied_current_searches_forward (st : List Schedule)
    (uid : String) (now : Nat) (cur : Schedule)
    (hc : findCurrent st uid now = some cur)
    (happt : cur.appointments ≠ []) :
    (get_availability st uid now).isAvailable = false ∧
    (∀ nxt, findNext st uid now = some nxt →
      nxt.userId = uid ∧ now < nxt.startTime ∧ nxt.available = true ∧
      (∀ m ∈ st, m.userId = uid → now < m.startTime → m.available = true →
        nxt.startTime ≤ m.startTime) ∧
      (get_availability st uid now).timeUntilNextAvailability =
        some ((nxt.startTime - now) / 60)) ∧
    (findNext st uid now = none →
      (get_availability st uid now).timeUntilNextAvailability = none) := by
  have he : cur.appointments.isEmpty = false := by
    cases hq : cur.appointments.isEmpty with
    | true => exact absurd (List.isEmpty_iff.mp hq) happt
    | false => rfl
  have hb : (cur.available && cur.appointments.isEmpty) = false := by
    simp [he]
  refine ⟨?_, ?_, ?_⟩
  · cases hn : findNext st uid now with
    | some nxt => simp [get_availability, hc, hb, hn]
    | none => simp [get_availability, hc, hb, hn]
  · intro nxt hn
    have hspec := findNext_some_spec st uid now nxt hn
    have hp := hspec.2.1
    unfold nextPred at hp
    simp only [Bool.and_eq_true, beq_iff_eq, decide_eq_true_eq] at hp
    refine ⟨hp.1.1, hp.1.2, hp.2, ?_, ?_⟩
    · intro m hm h1 h2 h3
      apply hspec.2.2 m hm
      unfold nextPred
      simp only [Bool.and_eq_true, beq_iff_eq, decide_eq_true_eq]
      exact ⟨⟨h1, h2⟩, h3⟩
    · simp [get_availability, hc, hb, hn]
  · intro hn
    simp [get_availability, hc, hb, hn]

theorem c2_witness :
    (get_availability [⟨1, "u", 0, 10, true, [7]⟩, ⟨2, "u", 130, 200, true, []⟩]
      "u" 5).isAvailable = false ∧
    (get_availability [⟨1, "u", 0, 10, true, [7]⟩, ⟨2, "u", 130, 200, true, []⟩]
      "u" 5).timeUntilNextAvailability = some 2 := by
  obtain ⟨h1, h2, -⟩ :=
    c2_occupied_current_searches_forward
      [⟨1, "u", 0, 10, true, [7]⟩, ⟨2, "u", 130, 200, true, []⟩] "u" 5
      ⟨1, "u", 0, 10, true, [7]⟩ (by decide) (by decide)
  have h3 := h2 ⟨2, "u", 130, 200, true, []⟩ (by decide)
  refine ⟨h1, ?_⟩
  rw [h3.2.2.2.2]
  decide

/-- C10 counterexample: a store holding only a future available Schedule of
user u gives, at now = 5, a response with isAvailable = false while a
Schedule with startTime after now and available = true exists, yet
timeUntilNextAvailability is absent, because no current Schedule was found. -/
theorem c10_counterexample :
    (get_availability [⟨1, "u", 100, 200, true, []⟩] "u" 5).isAvailable
      = false ∧
    (⟨1, "u", 100, 200, true, []⟩ : Schedule) ∈
      [(⟨1, "u", 100, 200, true, []⟩ : Schedule)] ∧
    nextPred "u" 5 ⟨1, "u", 100, 200, true, []⟩ = true ∧
    (get_availability [⟨1, "u", 100, 200, true, []⟩] "u" 5).timeUntilNextAvailability
      = none := by
  decide

/-- C10 (amended): every get_availability response carries a message; it
carries a timeUntilNextAvailability exactly when isAvailable = false, some
Schedule of the user contains now (inclusive), and some Schedule of the user
with startTime after now and available = true exists; in particular a
response with isAvailable = true never carries timeUntilNextAvailability. -/
theorem c10_response_invariant (st : List Schedule) (uid : String)
    (now : Nat) :
    ((get_availability st uid now).message).isSome = true ∧
    (((get_availability st uid now).timeUntilNextAvailability).isSome = true ↔
      ((∃ c ∈ st, currentPred uid now c = true) ∧
        (get_availability st uid now).isAvailable = false ∧
        (∃ m ∈ st, nextPred uid now m = true))) ∧
    ((get_availability st uid now).isAvailable = true →
      (get_availability st uid now).timeUntilNextAvailability = none) := by
  cases hc : findCurrent st uid now with
  | none =>
    have hnocur : ¬∃ c ∈ st, currentPred uid now c = true := by
      rintro ⟨c, hcm, hcp⟩
      have := List.find?_eq_none.mp hc c hcm
      exact this hcp
    have hres : get_availability st uid now =
        ⟨uid, false, some "No current schedules found", none⟩ := by
      simp [get_availability, hc]
    rw [hres]
    refine ⟨rfl, ?_, ?_⟩
    · constructor
      · intro h; exact absurd h (by simp)
      · rintro ⟨hcur, -, -⟩; exact absurd hcur hnocur
    · intro h; exact absurd h (by simp)
  | some cur =>
    have hcur : ∃ c ∈ st, currentPred uid now c = true :=
      ⟨cur, List.mem_of_find?_eq_some hc, List.find?_some hc⟩
    by_cases hb : (cur.available && cur.appointments.isEmpty) = true
    · have hres : get_availability st uid now =
          ⟨uid, true, some "Available", none⟩ := by
        simp [get_availability, hc, hb]
      rw [hres]
      refine ⟨rfl, ?_, fun _ => rfl⟩
      constructor
      · intro h; exact absurd h (by simp)
      · rintro ⟨-, hfalse, -⟩; exact absurd hfalse (by simp)
    · cases hn : findNext st uid now with
      | some nxt =>
        have hnext : ∃ m ∈ st, nextPred uid now m = true := by
          have hspec := findNext_some_spec st uid now nxt hn
          exact ⟨nxt, hspec.1, hspec.2.1⟩
        have hres : get_availability st uid now =
            ⟨uid, false,
              some ("Unavailable until " ++ formatTime nxt.startTime),
              some ((nxt.startTime - now) / 60)⟩ := by
          simp [get_availability, hc, hb, hn]
        rw [hres]
        refine ⟨rfl, ?_, ?_⟩
        · constructor
          · intro _; exact ⟨hcur, rfl, hnext⟩
          · intro _; rfl
        · intro h; exact absurd h (by simp)
      | none =>
        have hnonext : ¬∃ m ∈ st, nextPred uid now m = true := by
          rintro ⟨m, hm, hp⟩
          have := (findNext_none_iff st uid now).mp hn m hm
          rw [this] at hp
          exact absurd hp (by simp)
        have hres : get_availability st uid now =
            ⟨uid, false, some "No more available schedules today", none⟩ := by
          simp [get_availability, hc, hb, hn]
        rw [hres]
        refine ⟨rfl, ?_, ?_⟩
        · constructor
          · intro h; exact absurd h (by simp)
          · rintro ⟨-, -, hnext⟩; exact absurd hnext hnonext
        · intro h; exact absurd h (by simp)

/-- AuthToken row of the store; token is a unique column, and userId is the
id of the linked User row fetched by the include clause. -/
structure AuthToken where
  id : Nat
  token : String
  expiryDate : Nat
  userId : String
deriving Repr, DecidableEq

/-- Response model of refresh_token (RefreshTokenResponse in
refresh_token_service.py). -/
structure RefreshTokenResponse where
  access_token : String
  refresh_token : String
  token_type : String
  expires_in : Nat
deriving Repr, DecidableEq

/-- Encoding of a JWT by the external jose library, abstracted to a concrete
injective rendering of the subject and expiry claims. -/
def jwtEncode (sub : String) (exp : Nat) : String :=
  "jwt." ++ sub ++ "." ++ toString exp

/-- Auth refresh operation refresh_token from refresh_token_service.py: looks
up the presented token, rejects a missing record or one past its expiry, and
otherwise issues a new access token and rotates the stored refresh-token row
in place, persisting the new token value and a new 30-day expiry. -/
def refresh_token (st : List AuthToken) (now : Nat) (tok : String) :
    Except String (RefreshTokenResponse × List AuthToken) :=
  match st.find? (fun r => r.token == tok) with
  | none => .error "Refresh token is invalid or has expired."
  | some r =>
    if r.expiryDate < now then
      .error "Refresh token is invalid or has expired."
    else
      .ok (⟨jwtEncode r.userId (now + 15 * 60),
            jwtEncode r.userId (now + 30 * 86400), "bearer", 15 * 60⟩,
        st.map (fun q =>
          if q.id == r.id then
            { q with token := jwtEncode r.userId (now + 30 * 86400),
                     expiryDate := now + 30 * 86400 }
          else q))

/-- C5: refresh fails when no stored record matches the presented token or
when the matching record is past its expiry; a successful refresh rewrites
the matching row with the new token value and the new expiry, and a
subsequent refresh presenting the old value then fails, provided the token
column was unique in the store and the freshly issued token value differs
from the old one. -/
theorem c5_refresh_token_rotation (st : List AuthToken) (now now2 : Nat)
    (tok : String) :
    (st.find? (fun q => q.token == tok) = none →
      refresh_token st now tok =
        .error "Refresh token is invalid or has expired.") ∧
    (∀ r, st.find? (fun q => q.token == tok) = some r → r.expiryDate < now →
      refresh_token st now tok =
        .error "Refresh token is invalid or has expired.") ∧
    (∀ r resp st2, st.find? (fun q => q.token == tok) = some r →
      (∀ q ∈ st, q.token = tok → q.id = r.id) →
      refresh_token st now tok = .ok (resp, st2) →
      resp.refresh_token = jwtEncode r.userId (now + 30 * 86400) ∧
      (∀ q ∈ st2, q.id = r.id →
        q.token = resp.refresh_token ∧ q.expiryDate = now + 30 * 86400) ∧
      (resp.refresh_token ≠ tok →
        refresh_token st2 now2 tok =
          .error "Refresh token is invalid or has expired.")) := by
  refine ⟨?_, ?_, ?_⟩
  · intro h
    simp [refresh_token, h]
  · intro r hr hexp
    simp [refresh_token, hr, hexp]
  · intro r resp st2 hfind huniq hok
    by_cases hexp : r.expiryDate < now
    · have heval : refresh_token st now tok =
          .error "Refresh token is invalid or has expired." := by
        simp [refresh_token, hfind, hexp]
      rw [heval] at hok
      exact absurd hok (by simp)
    · have heval : refresh_token st now tok =
          .ok (⟨jwtEncode r.userId (now + 15 * 60),
            jwtEncode r.userId (now + 30 * 86400), "bearer", 15 * 60⟩,
          st.map (fun q =>
            if q.id == r.id then
              { q with token := jwtEncode r.userId (now + 30 * 86400),
                       expiryDate := now + 30 * 86400 }
            else q)) := by
        simp [refresh_token, hfind, hexp]
      rw [heval] at hok
      obtain ⟨hresp, hst⟩ :
          (⟨jwtEncode r.userId (now + 15 * 60),
            jwtEncode r.userId (now + 30 * 86400), "bearer", 15 * 60⟩ :
              RefreshTokenResponse) = resp ∧
          st.map (fun q =>
            if q.id == r.id then
              { q with token := jwtEncode r.userId (now + 30 * 86400),
                       expiryDate := now + 30 * 86400 }
            else q) = st2 := by
        simpa using hok
      subst hresp
      subst hst
      refine ⟨rfl, ?_, ?_⟩
      · intro q hq hid
        obtain ⟨p, hp, hfq⟩ := List.mem_map.mp hq
        by_cases hpid : p.id = r.id
        · rw [← hfq]
          simp [hpid]
        · rw [← hfq] at hid
          simp [hpid] at hid
      · intro hfresh
        have hne : jwtEncode r.userId (now + 30 * 86400) ≠ tok := by
          simpa using hfresh
        have hnone :
            (st.map (fun q =>
              if q.id == r.id then
                { q with token := jwtEncode r.userId (now + 30 * 86400),
                         expiryDate := now + 30 * 86400 }
              else q)).find? (fun q => q.token == tok) = none := by
          rw [List.find?_eq_none]
          intro q hq
          obtain ⟨p, hp, hfq⟩ := List.mem_map.mp hq
          by_cases hpid : p.id = r.id
          · rw [← hfq]
            simp [hpid, hne]
          · rw [← hfq]
            simp only [hpid, beq_iff_eq, if_neg, decide_eq_true_eq]
            intro hptok
            have : p.token = tok := by
              revert hptok
              simp [hpid]
            exact hpid (huniq p hp this)
        simp only [refresh_token, hnone]

theorem c5_witness :
    refresh_token [⟨1, "t0", 1000, "alice"⟩] 100 "t0" =
      .ok (⟨jwtEncode "alice" 1000, jwtEncode "alice" 2592100,
            "bearer", 900⟩,
        [⟨1, jwtEncode "alice" 2592100, 2592100, "alice"⟩]) ∧
    refresh_token [⟨1, jwtEncode "alice" 2592100, 2592100, "alice"⟩]
      200 "t0" = .error "Refresh token is invalid or has expired." ∧
    refresh_token [] 200 "t0" =
      .error "Refresh token is invalid or has expired." ∧
    refresh_token [⟨1, "t0", 1000, "alice"⟩] 5000 "t0" =
      .error "Refresh token is invalid or has expired." := by
  have h1 : refresh_token [⟨1, "t0", 1000, "alice"⟩] 100 "t0" =
      .ok (⟨jwtEncode "alice" 1000, jwtEncode "alice" 2592100,
            "bearer", 900⟩,
        [⟨1, jwtEncode "alice" 2592100, 2592100, "alice"⟩]) := by rfl
  obtain ⟨-, -, hsucc⟩ :=
    c5_refresh_token_rotation [⟨1, "t0", 1000, "alice"⟩] 100 200 "t0"
  have h2 := hsucc ⟨1, "t0", 1000, "alice"⟩ _ _ (by rfl) (by decide) h1
  refine ⟨h1, h2.2.2 (by decide), ?_, ?_⟩
  · obtain ⟨hmiss, -, -⟩ := c5_refresh_token_rotation [] 200 0 "t0"
    exact hmiss (by rfl)
  · obtain ⟨-, hexp, -⟩ :=
      c5_refresh_token_rotation [⟨1, "t0", 1000, "alice"⟩] 5000 0 "t0"
    exact hexp ⟨1, "t0", 1000, "alice"⟩ (by rfl) (by decide)

/-- User row of the store; email is a unique column and password holds the
salted hash. -/
structure User where
  id : String
  email : String
  password : String
  role : String
deriving Repr, DecidableEq

/-- Response model of login_user (UserLoginResponse in
login_user_service.py). -/
structure UserLoginResponse where
  token : String
  expires_in : Nat
deriving Repr, DecidableEq

/-- Password verification of the external bcrypt library, abstracted to a
concrete comparison of the stored hash against a rendering of the presented
password. -/
def checkpw (password hashed : String) : Bool :=
  hashed == "bcrypt$" ++ password

/-- Auth login operation login_user from login_user_service.py: looks up the
user by email, verifies the password hash, and on success issues a 30-minute
access token; any failure raises the same error. -/
def login_user (users : List User) (now : Nat) (email password : String) :
    Except String UserLoginResponse :=
  match users.find? (fun u => u.email == email) with
  | some u =>
    if checkpw password u.password then
      .ok ⟨jwtEncode u.email (now + 30 * 60), 30 * 60⟩
    else .error "Invalid login credentials."
  | none => .error "Invalid login credentials."

/-- C9: a login attempt whose email matches no stored user and one whose
email matches a user but whose password fails the hash check both fail with
the error value "Invalid login credentials.", and the two failure responses
are equal, hence indistinguishable. -/
theorem c9_login_failure_uniform (us1 us2 : List User) (now1 now2 : Nat)
    (e1 p1 e2 p2 : String) (u : User)
    (h1 : us1.find? (fun v => v.email == e1) = none)
    (h2 : us2.find? (fun v => v.email == e2) = some u)
    (h3 : checkpw p2 u.password = false) :
    login_user us1 now1 e1 p1 = .error "Invalid login credentials." ∧
    login_user us2 now2 e2 p2 = .error "Invalid login credentials." ∧
    login_user us1 now1 e1 p1 = login_user us2 now2 e2 p2 := by
  have ha : login_user us1 now1 e1 p1 = .error "Invalid login credentials." := by
    simp [login_user, h1]
  have hb : login_user us2 now2 e2 p2 = .error "Invalid login credentials." := by
    simp [login_user, h2, h3]
  exact ⟨ha, hb, by rw [ha, hb]⟩

theorem c9_witness :
    login_user [] 0 "a@x" "pw" = .error "Invalid login credentials." ∧
    login_user [⟨"1", "b@x", "bcrypt$secret", "Professional"⟩] 0
      "b@x" "wrong" = .error "Invalid login credentials." ∧
    login_user [] 0 "a@x" "pw" =
      login_user [⟨"1", "b@x", "bcrypt$secret", "Professional"⟩] 0
        "b@x" "wrong" :=
  c9_login_failure_uniform [] [⟨"1", "b@x", "bcrypt$secret", "Professional"⟩]
    0 0 "a@x" "pw" "b@x" "wrong" ⟨"1", "b@x", "bcrypt$secret", "Professional"⟩
    (by rfl) (by rfl) (by rfl)

/-- Profile row of the store, linked to a User by userId. -/
structure Profile where
  userId : String
  firstName : String
  lastName : String
deriving Repr, DecidableEq

/-- Store state for the user-update service: the User and Profile tables. -/
structure Db where
  users : List User
  profiles : List Profile
deriving Repr, DecidableEq

/-- Response model of update_user (UpdateUserProfileResponse in
update_user_service.py). -/
structure UpdateUserProfileResponse where
  id : String
  email : Option String
  firstName : Option String
  lastName : Option String
  role : Option String
  updateStatus : String
deriving Repr, DecidableEq

/-- Truthiness of an optional string in the source conditional: None and the
empty string are falsy, any other string is truthy. -/
def optTruthy (o : Option String) : Bool :=
  match o with
  | none => false
  | some s => !(s == "")

/-- Profile step of update_user: when firstName or lastName is truthy and a
Profile row with the given userId exists, that row gets the provided
(non-null) name fields applied; otherwise the store is unchanged. -/
def applyProfilePayload (db : Db) (id : String)
    (firstName lastName : Option String) : Db :=
  if optTruthy firstName || optTruthy lastName then
    match db.profiles.find? (fun p => p.userId == id) with
    | some _ =>
      { db with profiles := db.profiles.map (fun p =>
          if p.userId == id then
            { p with firstName := firstName.getD p.firstName,
                     lastName := lastName.getD p.lastName }
          else p) }
    | none => db
  else db

/-- User-update operation update_user from update_user_service.py: applies
the profile step, then either updates the User row with the provided email
and role fields (when at least one is present) or reads it back unchanged,
and echoes the result. A missing User row makes the source fail (attribute
access on None, or the ORM update raising); both are modelled as an error
result. -/
def update_user (db : Db) (id : String)
    (email firstName lastName role : Option String) :
    Except String (UpdateUserProfileResponse × Db) :=
  let db1 := applyProfilePayload db id firstName lastName
  if email.isSome || role.isSome then
    match db1.users.find? (fun u => u.id == id) with
    | none => .error "User record not found."
    | some u =>
      .ok (⟨u.id, some (email.getD u.email), firstName, lastName,
        some (role.getD u.role), "User profile successfully updated."⟩,
        { db1 with users := db1.users.map (fun v =>
            if v.id == id then
              { v with email := email.getD v.email, role := role.getD v.role }
            else v) })
  else
    match db1.users.find? (fun u => u.id == id) with
    | none => .error "User record not found."
    | some u =>
      .ok (⟨u.id, some u.email, firstName, lastName, some u.role,
        "User profile successfully updated."⟩, db1)

theorem applyProfilePayload_users (db : Db) (id : String)
    (fn ln : Option String) :
    (applyProfilePayload db id fn ln).users = db.users := by
  unfold applyProfilePayload
  split
  · split <;> rfl
  · rfl

theorem applyProfilePayload_lastName (db : Db) (id : String)
    (fn : Option String) :
    (applyProfilePayload db id fn none).profiles.map
        (fun p => (p.userId, p.lastName)) =
      db.profiles.map (fun p => (p.userId, p.lastName)) := by
  unfold applyProfilePayload
  split
  · split
    · simp only [List.map_map]
      apply List.map_congr_left
      intro p hp
      by_cases hpid : p.userId = id <;> simp [hpid]
    · rfl
  · rfl

/-- C8: an update providing only firstName (email, lastName and role absent)
leaves the User table unchanged, hence every stored email and role, and
leaves the lastName of every Profile row unchanged. -/
theorem c8_update_only_firstName_frame (db : Db) (id f : String)
    (resp : UpdateUserProfileResponse) (db2 : Db)
    (h : update_user db id none (some f) none none = .ok (resp, db2)) :
    db2.users = db.users ∧
    db2.profiles.map (fun p => (p.userId, p.lastName)) =
      db.profiles.map (fun p => (p.userId, p.lastName)) := by
  unfold update_user at h
  simp only [Option.isSome_none, Bool.or_self, Bool.false_eq_true,
    if_false] at h
  cases hu : (applyProfilePayload db id (some f) none).users.find?
      (fun u => u.id == id) with
  | none =>
    rw [hu] at h
    exact absurd h (by simp)
  | some u =>
    rw [hu] at h
    obtain ⟨-, hdb⟩ :
        (⟨u.id, some u.email, some f, none, some u.role,
          "User profile successfully updated."⟩ :
            UpdateUserProfileResponse) = resp ∧
        applyProfilePayload db id (some f) none = db2 := by
      simpa using h
    subst hdb
    exact ⟨applyProfilePayload_users db id (some f) none,
      applyProfilePayload_lastName db id (some f)⟩

theorem c8_witness :
    update_user ⟨[⟨"1", "a@x", "h", "Professional"⟩], [⟨"1", "Old", "Last"⟩]⟩
        "1" none (some "New") none none =
      .ok (⟨"1", some "a@x", some "New", none, some "Professional",
            "User profile successfully updated."⟩,
        ⟨[⟨"1", "a@x", "h", "Professional"⟩], [⟨"1", "New", "Last"⟩]⟩) ∧
    ([(⟨"1", "New", "Last"⟩ : Profile)].map
        (fun p => (p.userId, p.lastName)) =
      [(⟨"1", "Old", "Last"⟩ : Profile)].map
        (fun p => (p.userId, p.lastName))) := by
  have h1 : update_user
      ⟨[⟨"1", "a@x", "h", "Professional"⟩], [⟨"1", "Old", "Last"⟩]⟩
      "1" none (some "New") none none =
    .ok (⟨"1", some "a@x", some "New", none, some "Professional",
          "User profile successfully updated."⟩,
      ⟨[⟨"1", "a@x", "h", "Professional"⟩], [⟨"1", "New", "Last"⟩]⟩) := by rfl
  have h2 := c8_update_only_firstName_frame
    ⟨[⟨"1", "a@x", "h", "Professional"⟩], [⟨"1", "Old", "Last"⟩]⟩ "1" "New"
    ⟨"1", some "a@x", some "New", none, some "Professional",
      "User profile successfully updated."⟩
    ⟨[⟨"1", "a@x", "h", "Professional"⟩], [⟨"1", "New", "Last"⟩]⟩ h1
  exact ⟨h1, h2.2⟩

end AvailabilityChecker
